import Mathlib

/-!
Verification of the telomere-detection scanner (`Telofinder.py`).

The scanner reads the whole input as one upper-cased character buffer and
runs two near-identical passes over it (strand A and strand B), each pass
driving an inner character-consuming loop that shares its cursor with the
outer candidate loop.  We embed the buffer as a `List Char`, model Python's
indexing (negative indices count from the end, out-of-range raises) with
`pyChar`, and model the possibly-raising acceptance check in the `Except`
monad.
-/

/-- Python-style indexing into the character buffer: a negative index counts
from the end of the buffer; an index that is out of range after that
adjustment yields `none` (an `IndexError` in the original program). -/
def pyChar (t : List Char) (i : Int) : Option Char :=
  let j : Int := if i < 0 then i + t.length else i
  if 0 ≤ j then t.get? j.toNat else none

/-- Python `text.count(c, start, stop)` for a single character `c`: the
number of occurrences of `c` in the half-open slice `[start, stop)`,
clipped to the end of the buffer. -/
def countIn (t : List Char) (c : Char) (start stop : Nat) : Nat :=
  ((t.drop start).take (stop - start)).count c

/-- One strand orientation of the scanner.  Strand A (source lines 78-137)
uses primary `G`, secondary `T`, noise `{A, C}`; strand B (source lines
141-200) uses primary `C`, secondary `A`, noise `{T, G}`. -/
structure StrandConfig where
  primary : Char
  secondary : Char
  noise1 : Char
  noise2 : Char
deriving DecidableEq, Repr

def strandA : StrandConfig := ⟨'G', 'T', 'A', 'C'⟩

def strandB : StrandConfig := ⟨'C', 'A', 'T', 'G'⟩

/-- Result of dispatching on one character of the inner loop: either the
loop breaks (carrying the trash flag it sets), or the character is consumed
and the four counters `length`, `gt`, `tt`, `gg` are updated. -/
inductive StepRes where
  | brk (trash : Bool)
  | cons (len gt tt gg : Nat)
deriving DecidableEq, Repr

/-- Character dispatch of the inner scanning loop (source lines 88-111,
resp. 151-174): primary base extends the run and updates the adjacency
counter `gt` from the preceding character (`text[pos-1]`, which wraps to the
last character when `pos = 0`); secondary base extends the run and bumps
`tt`; a noise-set character is consumed only when fewer than 3 noise
characters occur in the forward window `[pos, pos+15)`; anything else sets
`trash` and breaks. -/
def dispatch (cfg : StrandConfig) (t : List Char) (pos len gt tt gg : Nat) : StepRes :=
  match t.get? pos with
  | none => .brk true
  | some ch =>
    if ch = cfg.primary then
      .cons (len + 1)
        (if pyChar t ((pos : Int) - 1) = some cfg.secondary then gt + 1 else 0) 0 (gg + 1)
    else if ch = cfg.secondary then
      .cons (len + 1) gt (tt + 1) 0
    else if ch = cfg.noise1 ∨ ch = cfg.noise2 then
      if countIn t cfg.noise1 pos (pos + 15) + countIn t cfg.noise2 pos (pos + 15) > 2 then
        .brk false
      else
        .cons (len + 1) gt tt gg
    else .brk true

/-- The inner scanning loop (source lines 87-121, resp. 150-184), fueled:
while `pos < length_of_text`, dispatch on the current character; on a
consumed character check the stop conditions `tt > 3`, `gg > 5`, `gt > 10`
in that order (the last one sets `trash`); otherwise advance the cursor.
Returns `(length, trash, final cursor)`. -/
def attemptFuel (cfg : StrandConfig) (t : List Char) :
    Nat → Nat → Nat → Nat → Nat → Nat → Nat × Bool × Nat
  | 0, pos, len, _, _, _ => (len, false, pos)
  | fuel + 1, pos, len, gt, tt, gg =>
    if pos < t.length then
      match dispatch cfg t pos len gt tt gg with
      | .brk tr => (len, tr, pos)
      | .cons len' gt' tt' gg' =>
        if tt' > 3 then (len', false, pos)
        else if gg' > 5 then (len', false, pos)
        else if gt' > 10 then (len', true, pos)
        else attemptFuel cfg t fuel (pos + 1) len' gt' tt' gg'
    else (len, false, pos)

/-- One attempt of the scanner starting at `pos` with freshly reset
counters.  The fuel `t.length - pos` is exact: the cursor advances by one
for each unit of fuel, so fuel runs out precisely when the loop guard
`pos < L` fails. -/
def attemptAt (cfg : StrandConfig) (t : List Char) (pos : Nat) : Nat × Bool × Nat :=
  attemptFuel cfg t (t.length - pos) pos 0 0 0 0

/-- An emitted row: `[index, length, position, context]` (source line 136). -/
structure Hit where
  index : Nat
  len : Nat
  pos : Nat
  context : List Char
deriving DecidableEq, Repr

/-- `raw_context.replace("\n", "END OF READ")` (source line 133). -/
def replNL (l : List Char) : List Char :=
  l.flatMap fun c => if c = '\n' then "END OF READ".toList else [c]

/-- `clean_context.replace("\t", " ")` (source line 134). -/
def replTab (l : List Char) : List Char :=
  l.map fun c => if c = '\t' then ' ' else c

/-- Context construction for an accepted hit (source lines 128-134):
slice `text[max(0, position-50) : min(L, position+length+50)]`, then the two
character replacements.  Truncated `Nat` subtraction models the
`max(0, position - 50)` clamp. -/
def buildContext (t : List Char) (position len : Nat) : List Char :=
  let s := position - 50
  let e := min t.length (position + (len + 50))
  replTab (replNL ((t.drop s).take (e - s)))

/-- The acceptance check of source line 124 (resp. 187), evaluated with
Python's left-to-right short-circuit: the boundary probes `text[position-1]`
and `text[position+length+1]` are reached only when the length and trash
tests pass, and an out-of-range probe raises (`Except.error`). -/
def acceptCheck (t : List Char) (minLen position len : Nat) (trash : Bool) :
    Except Unit Bool :=
  if minLen < len ∧ len < 1000 ∧ trash = false then
    match pyChar t ((position : Int) - 1) with
    | none => .error ()
    | some c1 =>
      if c1 = '\n' then .ok false
      else
        match pyChar t ((position : Int) + len + 1) with
        | none => .error ()
        | some c2 => if c2 = '\n' then .ok false else .ok true
  else .ok false

/-- The outer candidate loop of one strand pass (source lines 78-137,
resp. 141-200), fueled.  The cursor is shared with the inner loop: after an
attempt ending at cursor `e`, the outer `pos += 1` resumes at `e + 1`.  On
acceptance the shared hit index is bumped and a row is appended. -/
def scanAux (cfg : StrandConfig) (t : List Char) (minLen : Nat) :
    Nat → Nat → Nat → List Hit → Except Unit (Nat × List Hit)
  | 0, _, idx, acc => .ok (idx, acc.reverse)
  | fuel + 1, pos, idx, acc =>
    if pos < t.length then
      let r := attemptAt cfg t pos
      match acceptCheck t minLen pos r.1 r.2.1 with
      | .error e => .error e
      | .ok true =>
        scanAux cfg t minLen fuel (r.2.2 + 1) (idx + 1)
          (⟨idx + 1, r.1, pos, buildContext t pos r.1⟩ :: acc)
      | .ok false => scanAux cfg t minLen fuel (r.2.2 + 1) idx acc
    else .ok (idx, acc.reverse)

/-- One full strand pass: candidate cursor starts at 0; `startIdx` is the
value of the shared hit index when the pass starts.  Returns the final index
and the hits of this pass in emission order. -/
def scanStrand (cfg : StrandConfig) (t : List Char) (minLen : Nat) (startIdx : Nat) :
    Except Unit (Nat × List Hit) :=
  scanAux cfg t minLen (t.length + 1) 0 startIdx []

/-- The whole program (both passes, source lines 75-200): strand A first,
then strand B continuing the shared index; the result list is the
concatenation.  A raised `IndexError` in either pass aborts the program. -/
def telofinder (t : List Char) (minLen : Nat) : Except Unit (List Hit) :=
  match scanStrand strandA t minLen 0 with
  | .error e => .error e
  | .ok ra =>
    match scanStrand strandB t minLen ra.1 with
    | .error e => .error e
    | .ok rb => .ok (ra.2 ++ rb.2)

/-- The sequence of candidate start offsets the outer loop of one strand
pass attempts.  The cursor is shared with the inner scanner, so the next
candidate start is one past the offset where the previous attempt stopped;
the acceptance check never moves the cursor. -/
def scanStartsFuel (cfg : StrandConfig) (t : List Char) : Nat → Nat → List Nat
  | 0, _ => []
  | fuel + 1, pos =>
    if pos < t.length then
      pos :: scanStartsFuel cfg t fuel ((attemptAt cfg t pos).2.2 + 1)
    else []

/-- Candidate start offsets of a whole strand pass. -/
def scanStarts (cfg : StrandConfig) (t : List Char) : List Nat :=
  scanStartsFuel cfg t (t.length + 1) 0

/-- The inner loop never moves the cursor backwards. -/
theorem attemptFuel_start_le (cfg : StrandConfig) (t : List Char) :
    ∀ fuel pos len gt tt gg, pos ≤ (attemptFuel cfg t fuel pos len gt tt gg).2.2 := by
  intro fuel
  induction fuel with
  | zero => intro pos len gt tt gg; simp [attemptFuel]
  | succ n ih =>
    intro pos len gt tt gg
    simp only [attemptFuel]
    split
    · split
      · simp
      · split
        · simp
        · split
          · simp
          · split
            · simp
            · exact Nat.le_trans (Nat.le_succ pos) (ih (pos + 1) _ _ _ _)
    · simp

/-- Each consumed character sits at a distinct cursor offset, so the length
gained by an attempt is at most one more than the cursor distance covered. -/
theorem attemptFuel_len_le (cfg : StrandConfig) (t : List Char) :
    ∀ fuel pos len gt tt gg,
      (attemptFuel cfg t fuel pos len gt tt gg).1 + pos ≤
        len + (attemptFuel cfg t fuel pos len gt tt gg).2.2 + 1 := by
  intro fuel
  induction fuel with
  | zero => intro pos len gt tt gg; simp [attemptFuel]
  | succ n ih =>
    intro pos len gt tt gg
    simp only [attemptFuel]
    split
    · split
      · simp
      · rename_i len' gt' tt' gg' heq
        have hlen : len' ≤ len + 1 := by
          unfold dispatch at heq
          split at heq
          · cases heq
          · split at heq
            · cases heq; omega
            · split at heq
              · cases heq; omega
              · split at heq
                · split at heq
                  · cases heq
                  · cases heq; omega
                · cases heq
        split
        · simp; omega
        · split
          · simp; omega
          · split
            · simp; omega
            · have h1 := ih (pos + 1) len' gt' tt' gg'
              have h2 := attemptFuel_start_le cfg t n (pos + 1) len' gt' tt' gg'
              omega
    · simp

/-- Facts extracted from a passing acceptance check: the length window, the
trash flag, and the pre-run boundary probe. -/
theorem acceptCheck_eq_true (t : List Char) (minLen position len : Nat) (trash : Bool)
    (h : acceptCheck t minLen position len trash = .ok true) :
    minLen < len ∧ len < 1000 ∧ trash = false ∧
    pyChar t ((position : Int) - 1) ≠ some '\n' := by
  unfold acceptCheck at h
  split at h
  · rename_i hcond
    split at h
    · cases h
    · rename_i c1 hc1
      split at h
      · cases h
      · rename_i hne
        refine ⟨hcond.1, hcond.2.1, hcond.2.2, ?_⟩
        rw [hc1]
        simpa using hne
  · cases h

/-- Every fact the driver guarantees about an emitted hit: its length and
trash flag come from the attempt at its position, the acceptance thresholds
hold, the pre-run probe saw no line separator, and its context is the one
built from the window around the run. -/
def HitOK (cfg : StrandConfig) (t : List Char) (minLen : Nat) (h : Hit) : Prop :=
  (attemptAt cfg t h.pos).1 = h.len ∧
  (attemptAt cfg t h.pos).2.1 = false ∧
  minLen < h.len ∧ h.len < 1000 ∧
  pyChar t ((h.pos : Int) - 1) ≠ some '\n' ∧
  h.context = buildContext t h.pos h.len

/-- Ordering of two hits of one pass: the earlier run ends at or before the
later run's start (and in particular starts strictly earlier). -/
def HitRel (a b : Hit) : Prop := a.pos + a.len ≤ b.pos ∧ a.pos < b.pos

theorem hitRel_trans : Transitive HitRel := by
  intro a b c hab hbc
  exact ⟨Nat.le_trans hab.1 (Nat.le_trans (Nat.le_add_right _ _) hbc.1),
    Nat.lt_trans hab.2 hbc.2⟩

/-- Main invariant of one strand pass: a successful run of the outer loop
extends the accumulator with hits whose indices continue the shared counter
sequentially, whose positions are pairwise ordered by `HitRel`, and each of
which satisfies `HitOK` and starts at or after the current cursor. -/
theorem scanAux_spec (cfg : StrandConfig) (t : List Char) (minLen : Nat) :
    ∀ fuel pos idx acc idx2 hits,
      scanAux cfg t minLen fuel pos idx acc = .ok (idx2, hits) →
      ∃ nw : List Hit,
        hits = acc.reverse ++ nw ∧
        idx2 = idx + nw.length ∧
        nw.map Hit.index = List.range' (idx + 1) nw.length ∧
        List.Chain' HitRel nw ∧
        ∀ h ∈ nw, pos ≤ h.pos ∧ HitOK cfg t minLen h := by
  intro fuel
  induction fuel with
  | zero =>
    intro pos idx acc idx2 hits hok
    simp only [scanAux, Except.ok.injEq, Prod.mk.injEq] at hok
    obtain ⟨h1, h2⟩ := hok
    subst h1
    exact ⟨[], by simp [h2.symm], by simp, by simp [List.range'], by simp, by simp⟩
  | succ n ih =>
    intro pos idx acc idx2 hits hok
    simp only [scanAux] at hok
    split at hok
    · rename_i hpos
      have hend : pos ≤ (attemptAt cfg t pos).2.2 :=
        attemptFuel_start_le cfg t (t.length - pos) pos 0 0 0 0
      have hlen : (attemptAt cfg t pos).1 + pos ≤ 0 + (attemptAt cfg t pos).2.2 + 1 :=
        attemptFuel_len_le cfg t (t.length - pos) pos 0 0 0 0
      split at hok
      · cases hok
      · rename_i hacc
        obtain ⟨nw', hhits, hidx, hmap, hchain, hmem⟩ := ih _ _ _ _ _ hok
        obtain ⟨hmin, hmax, htrash, hprobe⟩ := acceptCheck_eq_true _ _ _ _ _ hacc
        refine ⟨⟨idx + 1, (attemptAt cfg t pos).1, pos, buildContext t pos (attemptAt cfg t pos).1⟩ :: nw',
          ?_, ?_, ?_, ?_, ?_⟩
        · rw [hhits]; simp
        · simp only [List.length_cons]; omega
        · rw [List.map_cons, List.length_cons, List.range'_succ, hmap]
        · refine List.chain'_cons'.mpr ⟨?_, hchain⟩
          intro y hy
          have hy' := (hmem y (List.mem_of_mem_head? hy)).1
          exact ⟨by simp only []; omega, by simp only []; omega⟩
        · intro h hm
          rcases List.mem_cons.mp hm with hh | hh
          · subst hh
            exact ⟨Nat.le_refl _, rfl, htrash, hmin, hmax, hprobe, rfl⟩
          · have := (hmem h hh).1
            exact ⟨by omega, (hmem h hh).2⟩
      · rename_i hacc
        obtain ⟨nw, hhits, hidx, hmap, hchain, hmem⟩ := ih _ _ _ _ _ hok
        refine ⟨nw, hhits, hidx, hmap, hchain, fun h hm => ⟨?_, (hmem h hm).2⟩⟩
        have := (hmem h hm).1
        omega
    · simp only [Except.ok.injEq, Prod.mk.injEq] at hok
      obtain ⟨h1, h2⟩ := hok
      subst h1
      exact ⟨[], by simp [h2.symm], by simp, by simp [List.range'], by simp, by simp⟩

/-- With a nonempty buffer, Python's `text[-1]` is its last character. -/
theorem pyChar_neg_one (t : List Char) (hne : t ≠ []) :
    pyChar t (-1) = some (t.getLast hne) := by
  have hlen : 0 < t.length := List.length_pos.mpr hne
  unfold pyChar
  have h2 : (if (-1 : Int) < 0 then (-1 : Int) + ↑t.length else -1) = ↑t.length - 1 := by
    rw [if_pos (by omega)]; ring
  simp only [h2]
  rw [if_pos (by omega : (0 : Int) ≤ ↑t.length - 1)]
  have h3 : ((↑t.length - 1 : Int)).toNat = t.length - 1 := by omega
  rw [h3, List.get?_eq_getElem?, ← List.getLast?_eq_getElem?, List.getLast?_eq_getLast t hne]

/-- Every pass of the program succeeds only by emitting hits satisfying
`HitOK` for the strand that produced them. -/
theorem telofinder_mem (t : List Char) (minLen : Nat) (hits : List Hit) (h : Hit)
    (hok : telofinder t minLen = .ok hits) (hmem : h ∈ hits) :
    HitOK strandA t minLen h ∨ HitOK strandB t minLen h := by
  unfold telofinder at hok
  split at hok
  · cases hok
  · rename_i ra hA
    split at hok
    · cases hok
    · rename_i rb hB
      simp only [Except.ok.injEq] at hok
      subst hok
      obtain ⟨nwA, hhA, _, _, _, hmemA⟩ := scanAux_spec strandA t minLen _ _ _ _ _ _ hA
      obtain ⟨nwB, hhB, _, _, _, hmemB⟩ := scanAux_spec strandB t minLen _ _ _ _ _ _ hB
      simp only [List.reverse_nil, List.nil_append] at hhA hhB
      rcases List.mem_append.mp hmem with hm | hm
      · exact Or.inl (hmemA h (hhA ▸ hm)).2
      · exact Or.inr (hmemB h (hhB ▸ hm)).2

/-- The first candidate start recorded by the outer loop is the cursor
value it starts from. -/
theorem scanStartsFuel_head (cfg : StrandConfig) (t : List Char) :
    ∀ fuel pos y, y ∈ (scanStartsFuel cfg t fuel pos).head? → y = pos := by
  intro fuel pos y hy
  cases fuel with
  | zero => simp [scanStartsFuel] at hy
  | succ n =>
    simp only [scanStartsFuel] at hy
    split at hy
    · simp only [List.head?_cons, Option.mem_def, Option.some.injEq] at hy
      exact hy.symm
    · simp at hy

theorem scanStartsFuel_chain (cfg : StrandConfig) (t : List Char) :
    ∀ fuel pos,
      List.Chain' (fun p q => q = (attemptAt cfg t p).2.2 + 1 ∧ p < q)
        (scanStartsFuel cfg t fuel pos) := by
  intro fuel
  induction fuel with
  | zero => intro pos; simp [scanStartsFuel]
  | succ n ih =>
    intro pos
    simp only [scanStartsFuel]
    split
    · refine List.chain'_cons'.mpr ⟨?_, ih _⟩
      intro y hy
      have hy' := scanStartsFuel_head cfg t n _ y hy
      subst hy'
      have hend : pos ≤ (attemptAt cfg t pos).2.2 :=
        attemptFuel_start_le cfg t (t.length - pos) pos 0 0 0 0
      exact ⟨rfl, by omega⟩
    · simp

/-- The newline-replacement marker contains no newline, so the replacement
output never does. -/
theorem replNL_no_newline (l : List Char) : '\n' ∉ replNL l := by
  intro hmem
  rw [replNL, List.mem_flatMap] at hmem
  obtain ⟨a, _, hmem2⟩ := hmem
  by_cases ha : a = '\n'
  · rw [if_pos ha] at hmem2
    revert hmem2
    decide
  · rw [if_neg ha] at hmem2
    simp only [List.mem_singleton] at hmem2
    exact ha hmem2.symm

/-- A built context string contains neither a raw newline nor a tab. -/
theorem buildContext_clean (t : List Char) (p l : Nat) :
    '\n' ∉ buildContext t p l ∧ '\t' ∉ buildContext t p l := by
  unfold buildContext
  constructor
  · intro hmem
    rw [replTab, List.mem_map] at hmem
    obtain ⟨a, ha, heq⟩ := hmem
    by_cases h : a = '\t'
    · rw [if_pos h] at heq
      exact absurd heq (by decide)
    · rw [if_neg h] at heq
      subst heq
      exact replNL_no_newline _ ha
  · intro hmem
    rw [replTab, List.mem_map] at hmem
    obtain ⟨a, ha, heq⟩ := hmem
    by_cases h : a = '\t'
    · rw [if_pos h] at heq
      exact absurd heq (by decide)
    · rw [if_neg h] at heq
      exact h heq

instance : IsTrans Hit HitRel := ⟨fun _ _ _ h1 h2 => hitRel_trans h1 h2⟩

/-- Example input: 12 `G`s followed by 8 `A`s. -/
def exT : List Char := List.replicate 12 'G' ++ List.replicate 8 'A'

/-- The hits the program emits on `exT` with `min_length = 5`. -/
def exHits : List Hit := [⟨1, 6, 0, exT⟩, ⟨2, 6, 6, exT⟩, ⟨3, 6, 10, exT⟩]

/-- Example input wrapped in line separators: newline, 12 `G`s, 8 `A`s, newline. -/
def exT2 : List Char := ['\n'] ++ List.replicate 12 'G' ++ List.replicate 8 'A' ++ ['\n']

/-- The context window built for every hit on `exT2`: the whole buffer with
both newlines replaced by the marker text. -/
def ctx2 : List Char :=
  "END OF READ".toList ++ (List.replicate 12 'G' ++ List.replicate 8 'A') ++
    "END OF READ".toList

/-- The hits the program emits on `exT2` with `min_length = 5`. -/
def exHits2 : List Hit := [⟨1, 6, 7, ctx2⟩, ⟨2, 6, 11, ctx2⟩]

theorem telofinder_exT : telofinder exT 5 = .ok exHits := rfl

theorem telofinder_exT2 : telofinder exT2 5 = .ok exHits2 := rfl

/-- C1 (amended): the outer candidate cursor is shared with the inner
scanner, so after each attempt it advances by exactly 1 from the offset
where the attempt's scan stopped (not from the attempt's start): successive
candidate start offsets satisfy `next = end-of-previous-attempt + 1` and are
strictly increasing, so not every offset in `[0, length)` is attempted. -/
theorem C1_shared_cursor (cfg : StrandConfig) (t : List Char) :
    List.Chain' (fun p q => q = (attemptAt cfg t p).2.2 + 1 ∧ p < q) (scanStarts cfg t) :=
  scanStartsFuel_chain cfg t (t.length + 1) 0

/-- C1 (counterexample): on the text `"GG"` the strand-A pass attempts only
start offset 0; offset 1 is never attempted, refuting "a StrandScanner run
at every start offset from 0 to length-1". -/
theorem C1_counterexample :
    scanStarts strandA ("GG".toList) ≠ List.range ("GG".toList).length := by
  decide

set_option maxRecDepth 10000 in
/-- C2 (counterexample): scanning 200 `G`s with `min_length = 50` on the
strand-A pass does not produce the single hit of length 200 at position 0
that the claim demands — the `gg > 5` cap stops every attempt at length 6. -/
theorem C2_counterexample :
    scanStrand strandA (List.replicate 200 'G') 50 0 ≠
      .ok (1, [⟨1, 200, 0, buildContext (List.replicate 200 'G') 0 200⟩]) := by
  intro hco
  have h0 : scanStrand strandA (List.replicate 200 'G') 50 0 = .ok (0, []) := rfl
  rw [h0] at hco
  simp at hco

set_option maxRecDepth 10000 in
/-- C2 (amended): scanning 200 `G`s with `min_length = 50` yields zero hits
on the strand-A pass: every attempt is stopped by the `gg > 5` consecutive
primary-base cap at length 6, far below the threshold. -/
theorem C2_zero_hits :
    scanStrand strandA (List.replicate 200 'G') 50 0 = .ok (0, []) := rfl

/-- C3 (code bug): the boundary probes are not total.  On the text
`"GGTGGTGGTGGT"` with `min_length = 5` the whole text is one qualifying run,
so the post-run probe reads offset `position + length + 1 = 13`, past the
end of the 12-character buffer, and the program raises `IndexError` instead
of treating the probe as "not a line separator". -/
theorem C3_probe_raises : telofinder ("GGTGGTGGTGGT".toList) 5 = .error () := rfl

/-- C4: every hit emitted by a successful run satisfies
`min_length < length < 1000`, and its length and trash flag come from the
attempt of one of the two strands at its position with the trash flag false
— so a run terminated by an unrecognized character is never emitted. -/
theorem C4_hit_bounds (t : List Char) (minLen : Nat) (hits : List Hit) (h : Hit)
    (hok : telofinder t minLen = .ok hits) (hmem : h ∈ hits) :
    minLen < h.len ∧ h.len < 1000 ∧
    (((attemptAt strandA t h.pos).1 = h.len ∧ (attemptAt strandA t h.pos).2.1 = false) ∨
     ((attemptAt strandB t h.pos).1 = h.len ∧ (attemptAt strandB t h.pos).2.1 = false)) := by
  rcases telofinder_mem t minLen hits h hok hmem with hOK | hOK
  · exact ⟨hOK.2.2.1, hOK.2.2.2.1, Or.inl ⟨hOK.1, hOK.2.1⟩⟩
  · exact ⟨hOK.2.2.1, hOK.2.2.2.1, Or.inr ⟨hOK.1, hOK.2.1⟩⟩

theorem C4_witness :
    5 < 6 ∧ (6 : Nat) < 1000 ∧
    (((attemptAt strandA exT 0).1 = 6 ∧ (attemptAt strandA exT 0).2.1 = false) ∨
     ((attemptAt strandB exT 0).1 = 6 ∧ (attemptAt strandB exT 0).2.1 = false)) :=
  C4_hit_bounds exT 5 exHits ⟨1, 6, 0, exT⟩ telofinder_exT (by simp [exHits])

/-- C5: after a character has been consumed (dispatch returned updated
counters), the inner loop checks its stop conditions in source order: a
secondary-run counter above 3 stops the attempt with trash false, a
primary-run counter above 5 stops it with trash false, and a
primary-adjacency counter above 10 sets trash and stops. -/
theorem C5_stop_conditions (cfg : StrandConfig) (t : List Char)
    (fuel pos len gt tt gg len' gt' tt' gg' : Nat)
    (hpos : pos < t.length)
    (hd : dispatch cfg t pos len gt tt gg = .cons len' gt' tt' gg') :
    (3 < tt' → attemptFuel cfg t (fuel + 1) pos len gt tt gg = (len', false, pos)) ∧
    (tt' ≤ 3 → 5 < gg' → attemptFuel cfg t (fuel + 1) pos len gt tt gg = (len', false, pos)) ∧
    (tt' ≤ 3 → gg' ≤ 5 → 10 < gt' →
      attemptFuel cfg t (fuel + 1) pos len gt tt gg = (len', true, pos)) := by
  refine ⟨fun h1 => ?_, fun h1 h2 => ?_, fun h1 h2 h3 => ?_⟩
  · simp only [attemptFuel, if_pos hpos, hd]
    rw [if_pos h1]
  · simp only [attemptFuel, if_pos hpos, hd]
    rw [if_neg (by omega), if_pos h2]
  · simp only [attemptFuel, if_pos hpos, hd]
    rw [if_neg (by omega), if_neg (by omega), if_pos h3]

theorem C5_witness :
    attemptFuel strandA ("TTTT".toList) 1 3 3 0 3 0 = (4, false, 3) :=
  (C5_stop_conditions strandA ("TTTT".toList) 0 3 3 0 3 0 4 0 4 0 (by decide) rfl).1
    (by omega)

/-- C6: when the cursor sits on a noise-set character, the count of
noise-set characters in the forward window `[pos, pos+15)` (clipped at the
text end) decides the step: above 2 the attempt stops without consuming the
character and without setting trash; otherwise the character is consumed
(length incremented by 1) with all counters unchanged, and the loop
continues from the next offset — the noise count carries no state across
iterations. -/
theorem C6_noise_window (cfg : StrandConfig) (t : List Char) (fuel pos len gt tt gg : Nat)
    (ch : Char) (hch : t.get? pos = some ch)
    (hp : ch ≠ cfg.primary) (hs : ch ≠ cfg.secondary)
    (hn : ch = cfg.noise1 ∨ ch = cfg.noise2) :
    (2 < countIn t cfg.noise1 pos (pos + 15) + countIn t cfg.noise2 pos (pos + 15) →
      attemptFuel cfg t (fuel + 1) pos len gt tt gg = (len, false, pos)) ∧
    (countIn t cfg.noise1 pos (pos + 15) + countIn t cfg.noise2 pos (pos + 15) ≤ 2 →
      dispatch cfg t pos len gt tt gg = .cons (len + 1) gt tt gg) ∧
    (countIn t cfg.noise1 pos (pos + 15) + countIn t cfg.noise2 pos (pos + 15) ≤ 2 →
      tt ≤ 3 → gg ≤ 5 → gt ≤ 10 →
      attemptFuel cfg t (fuel + 1) pos len gt tt gg =
        attemptFuel cfg t fuel (pos + 1) (len + 1) gt tt gg) := by
  have hpos : pos < t.length := by
    by_contra hc
    rw [List.get?_eq_none.mpr (by omega)] at hch
    cases hch
  have hdisp : ∀ l g tcnt gcnt, dispatch cfg t pos l g tcnt gcnt =
      if 2 < countIn t cfg.noise1 pos (pos + 15) + countIn t cfg.noise2 pos (pos + 15)
      then .brk false else .cons (l + 1) g tcnt gcnt := by
    intro l g tcnt gcnt
    unfold dispatch
    rw [hch]
    simp only [if_neg hp, if_neg hs, if_pos hn]
  refine ⟨fun h1 => ?_, fun h1 => ?_, fun h1 h2 h3 h4 => ?_⟩
  · simp only [attemptFuel, if_pos hpos, hdisp, if_pos h1]
  · rw [hdisp, if_neg (by omega)]
  · simp only [attemptFuel, if_pos hpos, hdisp, if_neg (show ¬ 2 <
      countIn t cfg.noise1 pos (pos + 15) + countIn t cfg.noise2 pos (pos + 15) by omega)]
    rw [if_neg (by omega), if_neg (by omega), if_neg (by omega)]

theorem C6_witness :
    attemptFuel strandA ("AAAA".toList) 1 0 0 0 0 0 = (0, false, 0) :=
  (C6_noise_window strandA ("AAAA".toList) 0 0 0 0 0 0 'A' rfl (by decide) (by decide)
    (Or.inl rfl)).1 (by decide)

/-- C7: the context of every emitted hit is the window
`[max(0, pos-50), min(L, pos+len+50))` of the text with newlines replaced by
the marker text and tabs by spaces, and hence contains no raw newline or
tab character. -/
theorem C7_context (t : List Char) (minLen : Nat) (hits : List Hit) (h : Hit)
    (hok : telofinder t minLen = .ok hits) (hmem : h ∈ hits) :
    h.context = buildContext t h.pos h.len ∧ '\n' ∉ h.context ∧ '\t' ∉ h.context := by
  have hctx : h.context = buildContext t h.pos h.len := by
    rcases telofinder_mem t minLen hits h hok hmem with hOK | hOK
    · exact hOK.2.2.2.2.2
    · exact hOK.2.2.2.2.2
  refine ⟨hctx, ?_, ?_⟩ <;> rw [hctx]
  · exact (buildContext_clean t h.pos h.len).1
  · exact (buildContext_clean t h.pos h.len).2

theorem C7_witness :
    ctx2 = buildContext exT2 7 6 ∧ '\n' ∉ ctx2 ∧ '\t' ∉ ctx2 :=
  C7_context exT2 5 exHits2 ⟨1, 6, 7, ctx2⟩ telofinder_exT2 (by simp [exHits2])

/-- C8: a successful run's result list is all strand-A hits followed by all
strand-B hits, each pass in strictly ascending position order, and the index
fields over the concatenation are exactly 1, 2, 3, .... -/
theorem C8_order_and_indices (t : List Char) (minLen : Nat) (ra rb : Nat × List Hit)
    (hits : List Hit)
    (hA : scanStrand strandA t minLen 0 = .ok ra)
    (hB : scanStrand strandB t minLen ra.1 = .ok rb)
    (hok : telofinder t minLen = .ok hits) :
    hits = ra.2 ++ rb.2 ∧
    List.Chain' (fun a b => a.pos < b.pos) ra.2 ∧
    List.Chain' (fun a b => a.pos < b.pos) rb.2 ∧
    hits.map Hit.index = List.range' 1 hits.length := by
  have hconcat : hits = ra.2 ++ rb.2 := by
    unfold telofinder at hok
    split at hok
    · cases hok
    · rename_i ra' hA'
      rw [hA] at hA'
      injection hA' with h1
      subst h1
      split at hok
      · cases hok
      · rename_i rb' hB'
        rw [hB] at hB'
        injection hB' with h2
        subst h2
        simp only [Except.ok.injEq] at hok
        exact hok.symm
  obtain ⟨nwA, hhA, hidxA, hmapA, hchainA, _⟩ := scanAux_spec strandA t minLen _ _ _ _ _ _ hA
  obtain ⟨nwB, hhB, hidxB, hmapB, hchainB, _⟩ := scanAux_spec strandB t minLen _ _ _ _ _ _ hB
  simp only [List.reverse_nil, List.nil_append] at hhA hhB
  refine ⟨hconcat, ?_, ?_, ?_⟩
  · rw [hhA]
    exact hchainA.imp (fun a b h => h.2)
  · rw [hhB]
    exact hchainB.imp (fun a b h => h.2)
  · rw [hconcat, List.map_append, hhA, hhB, hmapA, hmapB, hidxA]
    simp only [List.length_append, Nat.zero_add]
    rw [show nwA.length + 1 = 1 + nwA.length by omega, List.range'_append_1,
      Nat.add_comm nwB.length nwA.length]

theorem C8_witness :
    exHits = [⟨1, 6, 0, exT⟩, ⟨2, 6, 6, exT⟩] ++ [⟨3, 6, 10, exT⟩] ∧
    List.Chain' (fun a b => a.pos < b.pos) ([⟨1, 6, 0, exT⟩, ⟨2, 6, 6, exT⟩] : List Hit) ∧
    List.Chain' (fun a b => a.pos < b.pos) ([⟨3, 6, 10, exT⟩] : List Hit) ∧
    exHits.map Hit.index = List.range' 1 exHits.length :=
  C8_order_and_indices exT 5 (2, [⟨1, 6, 0, exT⟩, ⟨2, 6, 6, exT⟩]) (3, [⟨3, 6, 10, exT⟩])
    exHits rfl rfl telofinder_exT

/-- C9 (counterexample): on `exT` (12 `G`s then 8 `A`s) with
`min_length = 5` the strand-A pass emits hits of length 6 at positions 0
and 6: the second hit's position equals, and does not strictly exceed, the
first hit's position plus its length. -/
theorem C9_counterexample :
    scanStrand strandA exT 5 0 = .ok (2, [⟨1, 6, 0, exT⟩, ⟨2, 6, 6, exT⟩]) ∧
    ¬ (0 + 6 < 6) := ⟨rfl, by omega⟩

/-- C9 (amended): within each single strand pass the emitted hits are
pairwise non-overlapping: every later hit's position is at least (but not
necessarily strictly greater than) the earlier hit's position plus its
length, i.e. the intervals `[pos, pos+len)` are disjoint but may abut. -/
theorem C9_no_overlap (cfg : StrandConfig) (t : List Char) (minLen startIdx idx2 : Nat)
    (hits : List Hit)
    (hok : scanStrand cfg t minLen startIdx = .ok (idx2, hits)) :
    List.Pairwise (fun a b => a.pos + a.len ≤ b.pos) hits := by
  obtain ⟨nw, hhits, _, _, hchain, _⟩ := scanAux_spec cfg t minLen _ _ _ _ _ _ hok
  simp only [List.reverse_nil, List.nil_append] at hhits
  subst hhits
  exact (List.chain'_iff_pairwise.mp hchain).imp (fun h => h.1)

theorem C9_witness :
    List.Pairwise (fun a b => a.pos + a.len ≤ b.pos)
      ([⟨1, 6, 0, exT⟩, ⟨2, 6, 6, exT⟩] : List Hit) :=
  C9_no_overlap strandA exT 5 0 2 [⟨1, 6, 0, exT⟩, ⟨2, 6, 6, exT⟩] rfl

/-- C10: on any nonempty text whose last character is a newline, no hit is
emitted at position 0 by either pass: the pre-run probe `text[position-1]`
evaluated at position 0 wraps to the last character of the whole text,
which is a newline, so the acceptance check fails there. -/
theorem C10_no_hit_at_zero (t : List Char) (minLen : Nat) (hits : List Hit)
    (hne : t ≠ []) (hlast : t.getLast hne = '\n')
    (hok : telofinder t minLen = .ok hits) :
    ∀ h ∈ hits, h.pos ≠ 0 := by
  intro h hm hzero
  have hprobe : pyChar t ((h.pos : Int) - 1) ≠ some '\n' := by
    rcases telofinder_mem t minLen hits h hok hm with hOK | hOK
    · exact hOK.2.2.2.2.1
    · exact hOK.2.2.2.2.1
  have h1 : ((h.pos : Int) - 1) = -1 := by rw [hzero]; simp
  rw [h1, pyChar_neg_one t hne, hlast] at hprobe
  exact hprobe rfl

theorem C10_witness : Hit.pos ⟨1, 6, 7, ctx2⟩ ≠ 0 :=
  C10_no_hit_at_zero exT2 5 exHits2 (by decide) (by decide) telofinder_exT2
    ⟨1, 6, 7, ctx2⟩ (by simp [exHits2])
